import Mathlib

/-!
Shallow embedding of the `django-awesome-tools` repository
(`dj_drf_utils`, `django_utils`, `power_tools` and the cache sub-package),
together with theorems settling the frozen claims about it.

Python dictionaries are modelled as insertion-ordered association lists
(`List (String × v)`), exceptions as an inductive type `PyExc`, fallible
Python code as `Except PyExc`, and the external cache backend as an
association list threaded through the functions that touch it.
-/

namespace AwesomeTools

/-- Python exception values relevant to this repository: the exception
classes caught or raised by its helper functions and managers.
`validationError` carries the message built by `CustomUserManager.create`;
`apiException` stands for a user-supplied `APIException` subclass. -/
inductive PyExc where
  | doesNotExist
  | validationError (msg : String)
  | valueError
  | fieldError
  | http404
  | typeError
  | apiException (name : String)
  deriving DecidableEq, Repr

/-- The exception classes caught by `get_object_or_error`
(`klass.DoesNotExist, ValidationError, ValueError, FieldError`). -/
def lookupCaught : PyExc → Bool
  | .doesNotExist => true
  | .validationError _ => true
  | .valueError => true
  | .fieldError => true
  | _ => false

/-- The exception classes caught around `klass.objects.filter` in both
versions of `get_list_or_error` (`ValidationError, ValueError, FieldError`). -/
def filterCaught : PyExc → Bool
  | .validationError _ => true
  | .valueError => true
  | .fieldError => true
  | _ => false

/-- Python `dict` lookup (`d.get(key)` / `d[key]`), first binding wins. -/
def dget {v : Type} : List (String × v) → String → Option v
  | [], _ => none
  | (k, x) :: rest, key => if k = key then some x else dget rest key

/-- The keys of a modelled dictionary. -/
def dkeys {v : Type} (d : List (String × v)) : List String := d.map Prod.fst

/-- Remove every binding of a key (on duplicate-free dictionaries this is
exactly Python `del d[key]`). -/
def dremove {v : Type} : List (String × v) → String → List (String × v)
  | [], _ => []
  | (k, x) :: rest, key =>
    if k = key then dremove rest key else (k, x) :: dremove rest key

/-- Python `d.pop(key)`: the value together with the dictionary without that
key, or `none` (a `KeyError`) when the key is absent. -/
def dpop {v : Type} (d : List (String × v)) (key : String) :
    Option (v × List (String × v)) :=
  match dget d key with
  | none => none
  | some x => some (x, dremove d key)

/-- Python `d[key] = x`: overwrite in place when present, append otherwise. -/
def dset {v : Type} : List (String × v) → String → v → List (String × v)
  | [], key, x => [(key, x)]
  | (k, y) :: rest, key, x =>
    if k = key then (key, x) :: rest else (k, y) :: dset rest key x

/-- Python `d.update(other)`: set every binding of `other` in order. -/
def dupdate {v : Type} (d upds : List (String × v)) : List (String × v) :=
  upds.foldl (fun acc kx => dset acc kx.1 kx.2) d

/-- First-defined choice between two optional values (used to phrase the
precedence claims about dictionary composition). -/
def oget {v : Type} : Option v → Option v → Option v
  | some x, _ => some x
  | none, b => b

/-- Python truthiness of a string (`if value:`): true exactly for non-empty
strings. -/
def truthyStr (s : String) : Bool := !(s == "")

end AwesomeTools

namespace DjDrfUtils

open AwesomeTools

/-- Embedding of `dj_drf_utils/helpers.py::get_object_or_error` (identical in
`django_utils/helpers.py`).  The behaviour of the external ORM call
`klass.objects.get(**kwargs)` is passed in as its outcome `lookup`; the
function returns it on success and replaces any of the four caught exception
classes by the supplied `exception` (`Http404` when none is supplied). -/
def get_object_or_error {α : Type} (lookup : Except PyExc α)
    (exception : PyExc := .http404) : Except PyExc α :=
  match lookup with
  | .ok obj => .ok obj
  | .error e => if lookupCaught e then .error exception else .error e

/-- Embedding of `dj_drf_utils/helpers.py::get_list_or_error`.  The outcome of
the external `klass.objects.filter(**kwargs)` call is `filterResult`; a caught
exception turns the result into the empty list before the
`if result or accept_empty` check. -/
def get_list_or_error {α : Type} (filterResult : Except PyExc (List α))
    (error_klass : PyExc := .http404) (accept_empty : Bool := false) :
    Except PyExc (List α) :=
  match filterResult with
  | .error e =>
    if filterCaught e then
      -- `result = []`, then `if result or accept_empty`
      if accept_empty then .ok [] else .error error_klass
    else .error e
  | .ok result =>
    if !result.isEmpty || accept_empty then .ok result else .error error_klass

end DjDrfUtils

namespace DjangoUtils

open AwesomeTools

/-- Embedding of `django_utils/helpers.py::get_list_or_error`.  Unlike the
`dj_drf_utils` version, a caught exception around the filter immediately
raises `error_klass`. -/
def get_list_or_error {α : Type} (filterResult : Except PyExc (List α))
    (error_klass : PyExc := .http404) (accept_empty : Bool := false) :
    Except PyExc (List α) :=
  match filterResult with
  | .error e => if filterCaught e then .error error_klass else .error e
  | .ok result =>
    if !result.isEmpty || accept_empty then .ok result else .error error_klass

end DjangoUtils

namespace AwesomeTools

/-- The authenticated user attached to a request: its `__str__()` form and
its primary key, as interpolated by `gen_cache_group`. -/
structure ReqUser where
  str : String
  pk : Nat
  deriving DecidableEq, Repr

/-- The parts of a Django `HttpRequest` read by the cache helpers:
`request.path`, `request.META` (headers), `request.GET` (query parameters)
and `request.user`. -/
structure HttpRequest where
  path : String
  meta : List (String × String)
  getParams : List (String × String)
  user : ReqUser
  deriving DecidableEq, Repr

/-- Python `str.split(sep)` with a one-character separator, on the character
list: splits at every occurrence, keeping empty pieces. -/
def pySplitAux (sep : Char) : List Char → List Char → List (List Char)
  | [], acc => [acc.reverse]
  | c :: cs, acc =>
    if c = sep then acc.reverse :: pySplitAux sep cs [] else pySplitAux sep cs (c :: acc)

/-- Python `s.split(sep)` for a string and a one-character separator. -/
def pySplit (s : String) (sep : Char) : List String :=
  (pySplitAux sep s.toList []).map List.asString

/-- Python f-string rendering of `request.META.get(header, None)`:
the header value, or the text `None` when the header is absent. -/
def metaText (request : HttpRequest) (header : String) : String :=
  match dget request.meta header with
  | some value => value
  | none => "None"

/-- Python `repr` of a string (no escaping needed for the keys and values
appearing here). -/
def pyStrRepr (s : String) : String := "'" ++ s ++ "'"

/-- Python `repr` of `request.GET.dict()`, as interpolated into the cache key
by `f"{request.path}_{request.GET.dict()}"`. -/
def pyDictRepr (d : List (String × String)) : String :=
  "\x7b" ++ String.intercalate ", " (d.map fun p => pyStrRepr p.1 ++ ": " ++ pyStrRepr p.2) ++ "\x7d"

/-- The external cache backend, a key-value store with insertion order. -/
abbrev Cache := List (String × String)

/-- Whether the first character list occurs at the start of the second. -/
def charsLead : List Char → List Char → Bool
  | [], _ => true
  | _ :: _, [] => false
  | a :: as, b :: bs => a = b && charsLead as bs

/-- Whether the first character list occurs contiguously inside the second. -/
def charsWithin (needle : List Char) : List Char → Bool
  | [] => charsLead needle []
  | b :: bs => charsLead needle (b :: bs) || charsWithin needle bs

/-- Whether `pat` occurs as a substring of `s`; a key matches the redis glob
pattern `*pat*` exactly when this holds. -/
def strContains (s pat : String) : Bool := charsWithin pat.toList s.toList

/-- The cache backend's `cache.keys("*pat*")`: every stored key containing
`pat` as a substring, in store order. -/
def cacheKeysGlob (c : Cache) (pat : String) : List String :=
  (c.filter fun p => strContains p.1 pat).map Prod.fst

/-- The cache backend's `cache.get_many(ks).values()`: the stored values of
the given keys, skipping absent ones. -/
def cacheGetMany (c : Cache) (ks : List String) : List String :=
  ks.filterMap fun k => dget c k

/-- The cache backend's `cache.delete_many(ks)`. -/
def cacheDeleteMany (c : Cache) (ks : List String) : Cache :=
  c.filter fun p => !ks.contains p.1

/-- The cache backend's `cache.delete(k)`. -/
def cacheDelete (c : Cache) (k : String) : Cache :=
  c.filter fun p => !(p.1 = k : Bool)

/-- The cache backend's `cache.get_or_set(k, v)`: store `v` under `k` only
when `k` is absent. -/
def cacheGetOrSet (c : Cache) (k value : String) : Cache :=
  match dget c k with
  | some _ => c
  | none => c ++ [(k, value)]

end AwesomeTools

namespace DjDrfUtilsCache

open AwesomeTools

/-- Embedding of `dj_drf_utils/cache/helpers.py::gen_cache_group` (the inner
`_gen_cache_group` applied to a request).  `request.path.split("/")[1]` raises
an `IndexError` (modelled as `none`) when the path contains no slash. -/
def gen_cache_group (vary_on_headers : List String) (vary_on_user : Bool)
    (request : HttpRequest) : Option String :=
  match (pySplit request.path '/').get? 1 with
  | none => none
  | some seg =>
    let group := vary_on_headers.foldl (fun g header => g ++ "_" ++ metaText request header) seg
    some (if vary_on_user then
            group ++ "_" ++ request.user.str ++ "_" ++ toString request.user.pk
          else group)

/-- The argument `f"{None}:{group}:{0}:{key}"` fed to the external
`custom_cache_page.utils.hash_key`. -/
def hashInput (group key : String) : String :=
  "None:" ++ group ++ ":0:" ++ key

/-- Embedding of `dj_drf_utils/cache/helpers.py::gen_cache_key` (the inner
`_gen_cache_key` applied to a request and the current cache state).  The
external `hash_key` function is passed in as `hashKey`.  Returns the computed
key together with the cache after the `cache.get_or_set` side effect, or
`none` when the group computation raises. -/
def gen_cache_key (hashKey : String → String) (vary_on_headers : List String)
    (vary_on_user : Bool) (use_group : Bool) (request : HttpRequest) (c : Cache) :
    Option (String × Cache) :=
  let key0 := request.path ++ "_" ++ pyDictRepr request.getParams
  let key := vary_on_headers.foldl (fun k header => k ++ "_" ++ metaText request header) key0
  if use_group then
    match gen_cache_group vary_on_headers vary_on_user request with
    | none => none
    | some group =>
      let hashed_key := hashKey (hashInput group key)
      some (key, cacheGetOrSet c (group ++ ":" ++ key) hashed_key)
  else
    some (key, c)

/-- Embedding of `dj_drf_utils/cache/helpers.py::handle_delete_cache`,
returning the cache after the deletions (or `none` when the group computation
raises). -/
def handle_delete_cache (hashKey : String → String) (vary_on_headers : List String)
    (vary_on_user : Bool) (del_group : Bool) (request : HttpRequest) (c : Cache) :
    Option Cache :=
  match gen_cache_group vary_on_headers vary_on_user request with
  | none => none
  | some cache_group =>
    if del_group then
      let group_keys := cacheKeysGlob c cache_group
      let hashed_keys := cacheGetMany c group_keys
      some (cacheDeleteMany c (hashed_keys ++ group_keys))
    else
      match gen_cache_key hashKey vary_on_headers vary_on_user true request c with
      | none => none
      | some (cache_key, c1) =>
        some (cacheDelete c1 (hashKey (hashInput cache_group cache_key)))

/-- Embedding of the `create` handler of `EraseCacheOnCreateMixin` produced by
`dj_drf_utils/cache/mixins.py::build_cache_mixins`: delegate to the framework
handler `superCreate` (which may itself read and write the cache), then run
`handle_delete_cache`, then return the delegate's response. -/
def eraseCacheOnCreate {α : Type} (hashKey : String → String)
    (vary_on_headers : List String) (vary_on_user : Bool)
    (superCreate : HttpRequest → Cache → α × Cache)
    (request : HttpRequest) (c : Cache) : Option (α × Cache) :=
  let rc := superCreate request c
  match handle_delete_cache hashKey vary_on_headers vary_on_user true request rc.2 with
  | none => none
  | some c2 => some (rc.1, c2)

/-- The `update` handler of `EraseCacheOnUpdateMixin`. -/
def eraseCacheOnUpdate {α : Type} (hashKey : String → String)
    (vary_on_headers : List String) (vary_on_user : Bool)
    (superUpdate : HttpRequest → Cache → α × Cache)
    (request : HttpRequest) (c : Cache) : Option (α × Cache) :=
  let rc := superUpdate request c
  match handle_delete_cache hashKey vary_on_headers vary_on_user true request rc.2 with
  | none => none
  | some c2 => some (rc.1, c2)

/-- The `partial_update` handler of `EraseCacheOnUpdateMixin`. -/
def eraseCacheOnPartialUpdate {α : Type} (hashKey : String → String)
    (vary_on_headers : List String) (vary_on_user : Bool)
    (superPartialUpdate : HttpRequest → Cache → α × Cache)
    (request : HttpRequest) (c : Cache) : Option (α × Cache) :=
  let rc := superPartialUpdate request c
  match handle_delete_cache hashKey vary_on_headers vary_on_user true request rc.2 with
  | none => none
  | some c2 => some (rc.1, c2)

/-- The `destroy` handler of `EraseCacheOnDestroyMixin`. -/
def eraseCacheOnDestroy {α : Type} (hashKey : String → String)
    (vary_on_headers : List String) (vary_on_user : Bool)
    (superDestroy : HttpRequest → Cache → α × Cache)
    (request : HttpRequest) (c : Cache) : Option (α × Cache) :=
  let rc := superDestroy request c
  match handle_delete_cache hashKey vary_on_headers vary_on_user true request rc.2 with
  | none => none
  | some c2 => some (rc.1, c2)

/-- The purge performed by the group branch of `handle_delete_cache`,
stated as a filter: an entry survives exactly when its key neither contains
the group name as a substring nor equals one of the hashed keys recorded
under the matching keys. -/
def groupPurge (c : Cache) (group : String) : Cache :=
  c.filter fun e =>
    !(strContains e.1 group || (cacheGetMany c (cacheKeysGlob c group)).contains e.1)

end DjDrfUtilsCache

namespace DjDrfUtilsMixins

open AwesomeTools

/-- The state of a viewset read by the serializer-selection mixins of
`dj_drf_utils/mixins.py`: the current action, the request method, and the
serializer-related class properties.  `σ` is the type of serializer classes. -/
structure ViewsetState (σ : Type) where
  action : String
  requestMethod : String
  serializer_class : σ
  method_serializers : List (String × σ)
  action_serializers : List (String × σ)
  detail_serializer_class : σ
  safe_actions : List String := ["list", "retrieve"]
  safe_serializer_class : σ

/-- Embedding of `SerializerByMethodMixin.get_serializer_class`:
`self.method_serializers.get(self.request.method, self.serializer_class)`. -/
def SerializerByMethodMixin.get_serializer_class {σ : Type} (s : ViewsetState σ) : σ :=
  (dget s.method_serializers s.requestMethod).getD s.serializer_class

/-- Embedding of `SerializerByActionMixin.get_serializer_class`:
`self.action_serializers.get(self.action, self.serializer_class)`. -/
def SerializerByActionMixin.get_serializer_class {σ : Type} (s : ViewsetState σ) : σ :=
  (dget s.action_serializers s.action).getD s.serializer_class

/-- The `DETAIL_ACTIONS` list of `SerializerByDetailActionsMixin`. -/
def DETAIL_ACTIONS : List String := ["retrieve", "update", "partial_update", "destroy"]

/-- Embedding of `SerializerByDetailActionsMixin.get_serializer_class`. -/
def SerializerByDetailActionsMixin.get_serializer_class {σ : Type} (s : ViewsetState σ) : σ :=
  if s.action ∈ DETAIL_ACTIONS then s.detail_serializer_class else s.serializer_class

/-- The six standard viewset actions named by the spec's glossary. -/
def standardActions : List String :=
  ["list", "create", "retrieve", "update", "partial_update", "destroy"]

/-- A value stored in the composed queryset filter of `FilterQuerysetMixin`:
the requesting user, a string taken from the URL or the query string, or
Python `None` for an absent URL kwarg. -/
inductive FilterVal where
  | user (u : ReqUser)
  | str (s : String)
  | pyNone
  deriving DecidableEq, Repr

/-- The serializer class of a `FilterQuerysetMixin` view: only its
`Meta.model` is read, and only the model's `objects.filter` behaviour
matters, so the model is embedded as the outcome of that ORM call on each
composed filter dictionary.  `γ` is the type of model instances. -/
structure SerializerClass (γ : Type) where
  metaModelFilter : List (String × FilterVal) → Except PyExc (List γ)

/-- The class properties of `FilterQuerysetMixin`
(`dj_drf_utils/mixins.py`; `power_tools/mixins.py` is identical up to the
`filter_` prefixes on the property names). -/
structure FilterViewConfig (γ : Type) where
  serializer_class : SerializerClass γ
  user_key : Option String := none
  filter_kwargs : List (String × String) := []
  filter_query_params : List (String × String) := []
  exception_klass : PyExc := .http404
  accept_empty : Bool := true

/-- The request-dependent state read by `FilterQuerysetMixin.get_queryset`:
the URL kwargs (`self.kwargs`), the query parameters (`self.request.GET`)
and the requesting user. -/
structure FilterViewCtx where
  kwargs : List (String × String)
  getParams : List (String × String)
  user : ReqUser

/-- The value of the dict comprehension
`{key: self.kwargs.get(value) for key, value in self.filter_kwargs.items()}`
for one URL param: the kwarg's value, or Python `None` when absent. -/
def kwargVal (kwargs : List (String × String)) (urlParam : String) : FilterVal :=
  match dget kwargs urlParam with
  | some s => .str s
  | none => .pyNone

/-- The dictionary `queryset_filters` composed by
`FilterQuerysetMixin.get_queryset` just before the delegation. -/
def queryset_filters {γ : Type} (cfg : FilterViewConfig γ) (ctx : FilterViewCtx)
    (extra_filters : List (String × FilterVal)) : List (String × FilterVal) :=
  let base : List (String × FilterVal) :=
    match cfg.user_key with
    | some k => if k ≠ "" then [(k, .user ctx.user)] else []
    | none => []
  let withKwargs := dupdate base
    (cfg.filter_kwargs.map fun p => (p.1, kwargVal ctx.kwargs p.2))
  let withParams := cfg.filter_query_params.foldl
    (fun acc p =>
      match dget ctx.getParams p.2 with
      | some value => if truthyStr value then dset acc p.1 (.str value) else acc
      | none => acc)
    withKwargs
  dupdate withParams extra_filters

/-- Embedding of `FilterQuerysetMixin.get_queryset`: compose the filters and
delegate to `get_list_or_error` on the model taken from
`self.serializer_class.Meta.model`. -/
def FilterQuerysetMixin.get_queryset {γ : Type} (cfg : FilterViewConfig γ)
    (ctx : FilterViewCtx) (extra_filters : List (String × FilterVal)) :
    Except PyExc (List γ) :=
  DjDrfUtils.get_list_or_error
    (cfg.serializer_class.metaModelFilter (queryset_filters cfg ctx extra_filters))
    cfg.exception_klass cfg.accept_empty

end DjDrfUtilsMixins

namespace DjDrfUtilsManagers

open AwesomeTools

/-- The class properties of `dj_drf_utils/managers.py::CustomUserManager`,
together with the set of field names existing on the user model
(`self.model._meta.get_field` succeeds exactly on them). -/
structure ManagerConfig where
  auth_field_name : String := "email"
  user_is_staff : Bool := false
  user_start_active : Bool := true
  super_is_staff : Bool := true
  super_start_active : Bool := true
  required_fields : List String := []
  model_fields : List String

/-- The user instance built and saved by `CustomUserManager.create`: the
keyword arguments forwarded to the model constructor, the explicitly set
flags, and the password handed to `set_password` (the hashing performed by
`set_password` is external and kept abstract as the raw value). -/
structure UserRecord where
  fields : List (String × String)
  is_active : Bool
  is_staff : Bool
  is_superuser : Bool := false
  password : String
  deriving DecidableEq, Repr

/-- The `FORBIDDEN_FIELDS` list of `CustomUserManager.create`. -/
def forbiddenFields (cfg : ManagerConfig) : List String :=
  [cfg.auth_field_name, "password", "is_staff", "is_superuser", "is_active"]

/-- The `for field in self.required_fields` loop of `CustomUserManager.create`:
check each required field against the forbidden list and the model's fields,
then pop it from the remaining inputs into `required_values`.  Returns the
accumulated `required_values` and the remaining inputs. -/
def popRequired (cfg : ManagerConfig) :
    List String → List (String × String) → List (String × String) →
    Except PyExc (List (String × String) × List (String × String))
  | [], extra, acc => .ok (acc, extra)
  | field :: rest, extra, acc =>
    if field ∈ forbiddenFields cfg then
      .error (.validationError ("Field " ++ field ++ " should not be in self.required_fields"))
    else if field ∉ cfg.model_fields then
      .error (.validationError ("Field " ++ field ++ " does not exist in the user model"))
    else
      match dpop extra field with
      | none => .error (.validationError ("Missing " ++ field ++ " field"))
      | some (value, extra2) => popRequired cfg rest extra2 (acc ++ [(field, value)])

/-- Embedding of `CustomUserManager.create`.  The model constructor call
`self.model(is_active=…, is_staff=…, **extra_fields, **required_values)`
raises a `TypeError` when a keyword collides with the explicit `is_active`
or `is_staff` arguments, exactly as the Python call does. -/
def create (cfg : ManagerConfig) (password : String)
    (extra_fields : List (String × String)) : Except PyExc UserRecord :=
  match dpop extra_fields cfg.auth_field_name with
  | none => .error (.validationError ("Missing " ++ cfg.auth_field_name ++ " field"))
  | some (auth_field, extra1) =>
    match popRequired cfg cfg.required_fields extra1
        [(cfg.auth_field_name, auth_field.toLower)] with
    | .error e => .error e
    | .ok (required_values, extraRest) =>
      if "is_active" ∈ dkeys extraRest ++ dkeys required_values ∨
         "is_staff" ∈ dkeys extraRest ++ dkeys required_values then
        .error .typeError
      else
        .ok { fields := extraRest ++ required_values
              is_active := cfg.user_start_active
              is_staff := cfg.user_is_staff
              is_superuser := false
              password := password }

end DjDrfUtilsManagers

namespace DjDrfUtilsDocs

open AwesomeTools

/-- The metadata attached to a view method by the
`drf_spectacular.utils.extend_schema` decorator, as used in
`dj_drf_utils/docs.py` (summary and description). -/
structure SchemaAnnotation where
  summary : String := " "
  description : String := " "
  deriving DecidableEq, Repr

/-- Embedding of `build_retrieve_docs`: annotate the `get` handler. -/
def build_retrieve_docs (summary : String := " ") (description : String := " ") :
    SchemaAnnotation :=
  { summary := summary, description := description }

/-- Embedding of `build_update_docs`: annotate the `put` and `patch`
handlers with the same summary and description. -/
def build_update_docs (summary : String := " ") (description : String := " ") :
    SchemaAnnotation × SchemaAnnotation :=
  ({ summary := summary, description := description },
   { summary := summary, description := description })

/-- Embedding of `build_destroy_docs`: annotate the `delete` handler. -/
def build_destroy_docs (summary : String := " ") (description : String := " ") :
    SchemaAnnotation :=
  { summary := summary, description := description }

/-- Embedding of `_check_keys_by_action`: default the missing action keys of
both dictionaries to a single space. -/
def check_keys_by_action (summaries descriptions : List (String × String))
    (actions_list : List String) :
    List (String × String) × List (String × String) :=
  actions_list.foldl
    (fun sd action =>
      (if (dget sd.1 action).isSome then sd.1 else dset sd.1 action " ",
       if (dget sd.2 action).isSome then sd.2 else dset sd.2 action " "))
    (summaries, descriptions)

/-- The annotations carried by the mixin returned by
`build_retrieve_update_destroy_docs`, one per HTTP method handler. -/
structure RUDDocs where
  onGet : SchemaAnnotation
  onPut : SchemaAnnotation
  onPatch : SchemaAnnotation
  onDelete : SchemaAnnotation
  deriving DecidableEq, Repr

/-- Embedding of `build_retrieve_update_destroy_docs`: default the missing
keys, then build the three mixins.  Note that the source passes only
`summaries["retrieve"]` to `build_retrieve_docs` and only
`summaries["update"]` to `build_update_docs` (their `description` arguments
are left to their `" "` defaults), while `build_destroy_docs` receives both
`summaries["destroy"]` and `descriptions["destroy"]`.  The indexed keys are
always present after `_check_keys_by_action`, so the `getD " "` fallbacks
are never taken. -/
def build_retrieve_update_destroy_docs
    (summaries : List (String × String) := [])
    (descriptions : List (String × String) := []) : RUDDocs :=
  let sd := check_keys_by_action summaries descriptions ["retrieve", "update", "destroy"]
  let retrieveDocs := build_retrieve_docs ((dget sd.1 "retrieve").getD " ")
  let updateDocs := build_update_docs ((dget sd.1 "update").getD " ")
  let destroyDocs := build_destroy_docs ((dget sd.1 "destroy").getD " ")
      ((dget sd.2 "destroy").getD " ")
  { onGet := retrieveDocs
    onPut := updateDocs.1
    onPatch := updateDocs.2
    onDelete := destroyDocs }

end DjDrfUtilsDocs

namespace AwesomeTools

lemma foldl_append_eq_join (l : List String) : ∀ s : String,
    l.foldl (· ++ ·) s = s ++ String.join l := by
  induction l with
  | nil =>
    intro s
    simp [String.join, String.append_empty]
  | cons a t ih =>
    intro s
    have h1 : String.join (a :: t) = a ++ String.join t := by
      unfold String.join
      rw [List.foldl_cons, String.empty_append]
      exact ih a
    rw [List.foldl_cons, ih (s ++ a), h1, String.append_assoc]

lemma join_cons (s : String) (l : List String) :
    String.join (s :: l) = s ++ String.join l := by
  unfold String.join
  rw [List.foldl_cons, String.empty_append]
  exact foldl_append_eq_join l s

lemma foldl_sep_eq_join (f : String → String) (l : List String) : ∀ init : String,
    l.foldl (fun g x => g ++ "_" ++ f x) init
      = init ++ String.join (l.map fun x => "_" ++ f x) := by
  induction l with
  | nil =>
    intro init
    simp [String.join, String.append_empty]
  | cons a t ih =>
    intro init
    rw [List.foldl_cons, List.map_cons, join_cons, ih (init ++ "_" ++ f a)]
    simp [String.append_assoc]

lemma pySplitAux_head (sep : Char) : ∀ (l acc : List Char),
    (pySplitAux sep l acc).head? =
      some (acc.reverse ++ l.takeWhile (fun c => c != sep)) := by
  intro l
  induction l with
  | nil =>
    intro acc
    simp [pySplitAux]
  | cons c cs ih =>
    intro acc
    by_cases h : c = sep
    · subst h
      simp [pySplitAux]
    · simp [pySplitAux, h, ih, List.append_assoc]

end AwesomeTools

open AwesomeTools DjDrfUtilsCache DjDrfUtilsMixins DjDrfUtilsManagers DjDrfUtilsDocs

/-- The text of the request path between the first and the second slash
(up to the path's end when there is no second slash), as the spec describes
the first path segment. -/
def firstPathSegment (path : String) : String :=
  (((path.toList.dropWhile fun c => c != '/').drop 1).takeWhile fun c => c != '/').asString

lemma pySplit_get_one (path : String) (cs : List Char) (h : path.toList = '/' :: cs) :
    (pySplit path '/').get? 1 = some (cs.takeWhile fun c => c != '/').asString := by
  unfold pySplit
  rw [h]
  have haux : pySplitAux '/' ('/' :: cs) [] = [] :: pySplitAux '/' cs [] := by
    simp [pySplitAux]
  rw [haux, List.map_cons, List.get?_cons_succ, List.get?_zero, List.head?_map,
    pySplitAux_head]
  simp

/-- C2: for every request whose path starts with a slash, the cache group is
the text between the first and second slash of the path, followed by one
`_`-separated component per listed header (the header's value, or `None` when
absent), and, when `vary_on_user` is set, a final part with the user's string
form and primary key. -/
theorem gen_cache_group_spec (vary_on_headers : List String) (vary_on_user : Bool)
    (request : HttpRequest) (cs : List Char) (h : request.path.toList = '/' :: cs) :
    gen_cache_group vary_on_headers vary_on_user request =
      some (firstPathSegment request.path
        ++ String.join (vary_on_headers.map fun hd => "_" ++ metaText request hd)
        ++ if vary_on_user then "_" ++ request.user.str ++ "_" ++ toString request.user.pk
           else "") := by
  have hseg : firstPathSegment request.path = (cs.takeWhile fun c => c != '/').asString := by
    unfold firstPathSegment
    rw [h]
    simp
  unfold gen_cache_group
  rw [pySplit_get_one request.path cs h, hseg]
  cases vary_on_user with
  | false =>
    dsimp only
    rw [foldl_sep_eq_join (metaText request) vary_on_headers]
    simp [String.append_empty]
  | true =>
    dsimp only
    rw [foldl_sep_eq_join (metaText request) vary_on_headers]
    simp [String.append_assoc]

/-- Closed witness for `gen_cache_group_spec` at a concrete request. -/
theorem gen_cache_group_spec_witness :
    ({ path := "/users/3/", meta := [("Authorization", "tk")], getParams := [],
       user := { str := "alice", pk := 7 } : HttpRequest }.path.toList
        = '/' :: "users/3/".toList) ∧
    gen_cache_group ["Authorization", "Lang"] true
        { path := "/users/3/", meta := [("Authorization", "tk")], getParams := [],
          user := { str := "alice", pk := 7 } } =
      some ("users" ++ String.join ["_tk", "_None"] ++ "_alice_7") := by
  refine ⟨by decide, ?_⟩
  have := gen_cache_group_spec ["Authorization", "Lang"] true
    { path := "/users/3/", meta := [("Authorization", "tk")], getParams := [],
      user := { str := "alice", pk := 7 } } ("users/3/".toList) (by decide)
  rw [this]
  rfl

/-- C10: the key returned by the function produced by `gen_cache_key` does not
depend on the `vary_on_user` flag — on the same request and cache state, the
runs with the flag set and unset return identical keys (the flag only changes
the group name registered as a side effect). -/
theorem gen_cache_key_independent_of_vary_on_user (hashKey : String → String)
    (vary_on_headers : List String) (use_group : Bool) (request : HttpRequest)
    (c : Cache) :
    (gen_cache_key hashKey vary_on_headers true use_group request c).map Prod.fst =
      (gen_cache_key hashKey vary_on_headers false use_group request c).map Prod.fst := by
  unfold gen_cache_key
  cases use_group with
  | false => simp
  | true =>
    unfold gen_cache_group
    cases h : (pySplit request.path '/').get? 1 with
    | none => simp [h]
    | some seg => simp [h]

/-- C3: `get_object_or_error` uses `Http404` when no exception is supplied,
returns the object when the underlying ORM lookup succeeds, raises the
supplied exception exactly when the lookup raises one of
`DoesNotExist, ValidationError, ValueError, FieldError`, and propagates any
other exception untouched. -/
theorem get_object_or_error_spec {α : Type} (lookup : Except PyExc α)
    (exception : PyExc) :
    (DjDrfUtils.get_object_or_error lookup
      = DjDrfUtils.get_object_or_error lookup .http404) ∧
    (∀ obj, lookup = .ok obj →
      DjDrfUtils.get_object_or_error lookup exception = .ok obj) ∧
    (∀ e, lookup = .error e → lookupCaught e = true →
      DjDrfUtils.get_object_or_error lookup exception = .error exception) ∧
    (∀ e, lookup = .error e → lookupCaught e = false →
      DjDrfUtils.get_object_or_error lookup exception = .error e) := by
  refine ⟨rfl, ?_, ?_, ?_⟩
  · intro obj h
    subst h
    rfl
  · intro e h hc
    subst h
    simp [DjDrfUtils.get_object_or_error, hc]
  · intro e h hc
    subst h
    simp [DjDrfUtils.get_object_or_error, hc]

/-- Closed witness for `get_object_or_error_spec`: a failed lookup with a
caught exception class is replaced by the supplied exception. -/
theorem get_object_or_error_spec_witness :
    ((Except.error .doesNotExist : Except PyExc Nat) = .error .doesNotExist) ∧
    lookupCaught .doesNotExist = true ∧
    DjDrfUtils.get_object_or_error (Except.error .doesNotExist : Except PyExc Nat)
      (.apiException "RoomNotFoundError") = .error (.apiException "RoomNotFoundError") :=
  ⟨rfl, rfl,
    (get_object_or_error_spec (Except.error .doesNotExist : Except PyExc Nat)
      (.apiException "RoomNotFoundError")).2.2.1 .doesNotExist rfl rfl⟩

/-- C9 (counterexample): the two implementations of `get_list_or_error` are
not extensionally equal — when the underlying filter raises a caught
exception and `accept_empty` is true, the `dj_drf_utils` version returns an
empty queryset while the `django_utils` version raises the error class. -/
theorem get_list_or_error_impls_differ :
    DjDrfUtils.get_list_or_error (Except.error .valueError : Except PyExc (List Nat))
      .http404 true = .ok [] ∧
    DjangoUtils.get_list_or_error (Except.error .valueError : Except PyExc (List Nat))
      .http404 true = .error .http404 ∧
    (Except.ok ([] : List Nat) : Except PyExc (List Nat)) ≠ .error .http404 :=
  ⟨rfl, rfl, fun h => Except.noConfusion h⟩

/-- C9 (amended): the two implementations of `get_list_or_error` agree
whenever the underlying filter call does not raise a caught exception, and
also when it does but `accept_empty` is false; when the filter raises
`ValidationError`, `ValueError` or `FieldError` and `accept_empty` is true,
the `dj_drf_utils` version returns the empty list while the `django_utils`
version raises the error class. -/
theorem get_list_or_error_equiv_amended {α : Type}
    (filterResult : Except PyExc (List α)) (error_klass : PyExc)
    (accept_empty : Bool) :
    (∀ r, filterResult = .ok r →
      DjDrfUtils.get_list_or_error filterResult error_klass accept_empty
        = DjangoUtils.get_list_or_error filterResult error_klass accept_empty) ∧
    (∀ e, filterResult = .error e → filterCaught e = false →
      DjDrfUtils.get_list_or_error filterResult error_klass accept_empty
        = DjangoUtils.get_list_or_error filterResult error_klass accept_empty) ∧
    (∀ e, filterResult = .error e → filterCaught e = true → accept_empty = false →
      DjDrfUtils.get_list_or_error filterResult error_klass accept_empty
        = DjangoUtils.get_list_or_error filterResult error_klass accept_empty) ∧
    (∀ e, filterResult = .error e → filterCaught e = true → accept_empty = true →
      DjDrfUtils.get_list_or_error filterResult error_klass accept_empty = .ok [] ∧
      DjangoUtils.get_list_or_error filterResult error_klass accept_empty
        = .error error_klass) := by
  refine ⟨?_, ?_, ?_, ?_⟩
  · intro r h
    subst h
    rfl
  · intro e h hc
    subst h
    simp [DjDrfUtils.get_list_or_error, DjangoUtils.get_list_or_error, hc]
  · intro e h hc ha
    subst h
    subst ha
    simp [DjDrfUtils.get_list_or_error, DjangoUtils.get_list_or_error, hc]
  · intro e h hc ha
    subst h
    subst ha
    simp [DjDrfUtils.get_list_or_error, DjangoUtils.get_list_or_error, hc]

/-- Closed witness for `get_list_or_error_equiv_amended`: both versions agree
on a successful filter. -/
theorem get_list_or_error_equiv_amended_witness :
    ((Except.ok [3] : Except PyExc (List Nat)) = .ok [3]) ∧
    DjDrfUtils.get_list_or_error (Except.ok [3] : Except PyExc (List Nat)) .http404 false
      = DjangoUtils.get_list_or_error (Except.ok [3] : Except PyExc (List Nat))
          .http404 false :=
  ⟨rfl, (get_list_or_error_equiv_amended (Except.ok [3] : Except PyExc (List Nat))
    .http404 false).1 [3] rfl⟩

/-- A concrete viewset state over natural-number serializer classes, used to
instantiate the serializer-mixin theorems. -/
def sampleViewset : ViewsetState Nat :=
  { action := "create"
    requestMethod := "POST"
    serializer_class := 0
    method_serializers := []
    action_serializers := [("create", 5)]
    detail_serializer_class := 7
    safe_serializer_class := 9 }

/-- C4: `SerializerByActionMixin.get_serializer_class` returns the
dictionary entry for the current action when there is one, the default
`serializer_class` otherwise, and depends on no other viewset state. -/
theorem serializer_by_action_spec {σ : Type} (s : ViewsetState σ) :
    (∀ cls, dget s.action_serializers s.action = some cls →
      SerializerByActionMixin.get_serializer_class s = cls) ∧
    (dget s.action_serializers s.action = none →
      SerializerByActionMixin.get_serializer_class s = s.serializer_class) ∧
    (∀ t : ViewsetState σ, s.action = t.action →
      s.action_serializers = t.action_serializers →
      s.serializer_class = t.serializer_class →
      SerializerByActionMixin.get_serializer_class s
        = SerializerByActionMixin.get_serializer_class t) := by
  refine ⟨?_, ?_, ?_⟩
  · intro cls h
    simp [SerializerByActionMixin.get_serializer_class, h]
  · intro h
    simp [SerializerByActionMixin.get_serializer_class, h]
  · intro t h1 h2 h3
    simp [SerializerByActionMixin.get_serializer_class, h1, h2, h3]

/-- Closed witness for `serializer_by_action_spec`: the action `create` picks
its dictionary entry. -/
theorem serializer_by_action_spec_witness :
    dget sampleViewset.action_serializers sampleViewset.action = some 5 ∧
    SerializerByActionMixin.get_serializer_class sampleViewset = 5 :=
  ⟨by decide, (serializer_by_action_spec sampleViewset).1 5 (by decide)⟩

/-- C5: `SerializerByDetailActionsMixin.get_serializer_class` returns the
detail serializer exactly on the four detail actions and the default
serializer on every other action; over the glossary's six standard actions
the detail actions are exactly those other than `list` and `create`. -/
theorem serializer_by_detail_actions_spec {σ : Type} (s : ViewsetState σ) :
    (s.action ∈ DETAIL_ACTIONS →
      SerializerByDetailActionsMixin.get_serializer_class s
        = s.detail_serializer_class) ∧
    (s.action ∉ DETAIL_ACTIONS →
      SerializerByDetailActionsMixin.get_serializer_class s = s.serializer_class) ∧
    (DETAIL_ACTIONS = ["retrieve", "update", "partial_update", "destroy"]) ∧
    (∀ a ∈ standardActions, a ∈ DETAIL_ACTIONS ↔ (a ≠ "list" ∧ a ≠ "create")) := by
  refine ⟨?_, ?_, rfl, by decide⟩
  · intro h
    simp [SerializerByDetailActionsMixin.get_serializer_class, h]
  · intro h
    simp [SerializerByDetailActionsMixin.get_serializer_class, h]

/-- Closed witness for `serializer_by_detail_actions_spec`: the non-detail
action `create` gets the default serializer. -/
theorem serializer_by_detail_actions_spec_witness :
    sampleViewset.action ∉ DETAIL_ACTIONS ∧
    SerializerByDetailActionsMixin.get_serializer_class sampleViewset = 0 :=
  ⟨by decide, (serializer_by_detail_actions_spec sampleViewset).2.1 (by decide)⟩

/-- C8: evaluation of `build_retrieve_update_destroy_docs` at supplied
retrieve/update/destroy descriptions.  The retrieve description is attached
to no handler (the `get`, `put` and `patch` annotations keep the one-space
default) although the destroy description does reach `delete` — the code
forwards only `summaries["retrieve"]` and `summaries["update"]` to the
underlying builders, contradicting its own docstring. -/
theorem build_rud_docs_drops_descriptions :
    build_retrieve_update_destroy_docs []
        [("retrieve", "R"), ("update", "U"), ("destroy", "D")] =
      { onGet := { summary := " ", description := " " }
        onPut := { summary := " ", description := " " }
        onPatch := { summary := " ", description := " " }
        onDelete := { summary := " ", description := "D" } } ∧
    (" " ≠ "R") ∧ (" " ≠ "U") := by
  refine ⟨rfl, by decide, by decide⟩

lemma contains_eq_true_iff {l : List String} {a : String} :
    l.contains a = true ↔ a ∈ l := by
  simp

lemma cacheKeysGlob_contains (c : Cache) (g : String) {e : String × String}
    (he : e ∈ c) : (cacheKeysGlob c g).contains e.1 = strContains e.1 g := by
  rw [Bool.eq_iff_iff, contains_eq_true_iff]
  constructor
  · intro hmem
    rcases List.mem_map.mp hmem with ⟨p, hp, hpe⟩
    have := (List.mem_filter.mp hp).2
    rwa [hpe] at this
  · intro hs
    exact List.mem_map.mpr ⟨e, List.mem_filter.mpr ⟨he, hs⟩, rfl⟩

lemma handle_delete_cache_group (hashKey : String → String)
    (vary_on_headers : List String) (vary_on_user : Bool) (request : HttpRequest)
    (c : Cache) (g : String)
    (h : gen_cache_group vary_on_headers vary_on_user request = some g) :
    handle_delete_cache hashKey vary_on_headers vary_on_user true request c
      = some (groupPurge c g) := by
  unfold handle_delete_cache
  rw [h]
  simp only [if_true, reduceIte]
  unfold groupPurge cacheDeleteMany
  congr 1
  apply List.filter_congr
  intro e he
  have hkeys := cacheKeysGlob_contains c g he
  rw [Bool.eq_iff_iff]
  simp only [Bool.not_eq_eq_eq_not, Bool.not_true, Bool.not_eq_true', Bool.or_eq_false_iff]
  rw [Bool.eq_iff_iff (b := false), Bool.eq_iff_iff (b := false), Bool.eq_iff_iff (b := false)]
  simp only [contains_eq_true_iff, List.mem_append, hkeys.symm, contains_eq_true_iff]
  tauto

/-- C1 (amended): each mutation handler produced by `build_cache_mixins`
first delegates to the framework handler, then deletes exactly those cache
entries whose key contains the request's group name as a substring together
with the hashed keys recorded under them (so every entry of the request's
group, but possibly also entries of another group whose key contains this
group's name), and returns the delegate's response unchanged. -/
theorem erase_cache_mixins_spec {α : Type} (hashKey : String → String)
    (vary_on_headers : List String) (vary_on_user : Bool)
    (superCreate superUpdate superPartialUpdate superDestroy :
      HttpRequest → Cache → α × Cache)
    (request : HttpRequest) (c : Cache) (g : String)
    (h : gen_cache_group vary_on_headers vary_on_user request = some g) :
    (eraseCacheOnCreate hashKey vary_on_headers vary_on_user superCreate request c
      = some ((superCreate request c).1, groupPurge (superCreate request c).2 g)) ∧
    (eraseCacheOnUpdate hashKey vary_on_headers vary_on_user superUpdate request c
      = some ((superUpdate request c).1, groupPurge (superUpdate request c).2 g)) ∧
    (eraseCacheOnPartialUpdate hashKey vary_on_headers vary_on_user
        superPartialUpdate request c
      = some ((superPartialUpdate request c).1,
              groupPurge (superPartialUpdate request c).2 g)) ∧
    (eraseCacheOnDestroy hashKey vary_on_headers vary_on_user superDestroy request c
      = some ((superDestroy request c).1, groupPurge (superDestroy request c).2 g)) := by
  refine ⟨?_, ?_, ?_, ?_⟩
  · unfold eraseCacheOnCreate
    dsimp only
    rw [handle_delete_cache_group hashKey vary_on_headers vary_on_user request
      (superCreate request c).2 g h]
  · unfold eraseCacheOnUpdate
    dsimp only
    rw [handle_delete_cache_group hashKey vary_on_headers vary_on_user request
      (superUpdate request c).2 g h]
  · unfold eraseCacheOnPartialUpdate
    dsimp only
    rw [handle_delete_cache_group hashKey vary_on_headers vary_on_user request
      (superPartialUpdate request c).2 g h]
  · unfold eraseCacheOnDestroy
    dsimp only
    rw [handle_delete_cache_group hashKey vary_on_headers vary_on_user request
      (superDestroy request c).2 g h]

/-- A concrete request to the `users` resource. -/
def usersRequest : HttpRequest :=
  { path := "/users/1/", meta := [], getParams := [], user := { str := "u", pk := 1 } }

/-- Closed witness for `erase_cache_mixins_spec`: against a cache holding a
`users` group key, its recorded hashed key and an unrelated `posts` entry,
the `create` handler returns the delegate's response and only the `posts`
entry survives. -/
theorem erase_cache_mixins_spec_witness :
    gen_cache_group [] false usersRequest = some "users" ∧
    eraseCacheOnCreate (fun s => s) [] false (fun _ c => ((0 : Nat), c)) usersRequest
        [("users:k1", "HK1"), ("HK1", "page"), ("posts:k2", "HK2")]
      = some (0, [("posts:k2", "HK2")]) := by
  refine ⟨by decide, ?_⟩
  have := (erase_cache_mixins_spec (fun s => s) [] false
    (fun _ c => ((0 : Nat), c)) (fun _ c => ((0 : Nat), c))
    (fun _ c => ((0 : Nat), c)) (fun _ c => ((0 : Nat), c)) usersRequest
    [("users:k1", "HK1"), ("HK1", "page"), ("posts:k2", "HK2")] "users" (by decide)).1
  rw [this]
  decide

/-- A concrete request to the `api` resource, whose group name is a
substring of the distinct group name `api_tok`. -/
def apiRequest : HttpRequest :=
  { path := "/api/", meta := [], getParams := [], user := { str := "u", pk := 1 } }

/-- C1 (counterexample): invalidating the group `api` also deletes the
stored entry `api_tok:k`, which belongs to the different group `api_tok`
(stored keys have the form `group:key`), because the deletion pattern
`*api*` matches any key containing `api` — refuting the claim that no entry
of any other group is deleted. -/
theorem erase_cache_cross_group_counterexample :
    gen_cache_group [] false apiRequest = some "api" ∧
    charsLead ("api_tok" ++ ":").toList "api_tok:k".toList = true ∧
    "api_tok" ≠ "api" ∧
    eraseCacheOnCreate (fun s => s) [] false (fun _ c => ((0 : Nat), c)) apiRequest
        [("api_tok:k", "H1")]
      = some (0, []) := by decide

lemma dget_eq_none_of_not_mem {v : Type} {d : List (String × v)} {k : String}
    (h : k ∉ dkeys d) : dget d k = none := by
  induction d with
  | nil => rfl
  | cons p rest ih =>
    cases p with
    | mk p1 p2 =>
      simp only [dkeys, List.map_cons, List.mem_cons, not_or] at h
      have h1 : ¬p1 = k := fun he => h.1 he.symm
      simp only [dget, if_neg h1]
      exact ih (by simpa [dkeys] using h.2)

lemma dget_dset {v : Type} (d : List (String × v)) (k : String) (x : v)
    (k' : String) : dget (dset d k x) k' = if k = k' then some x else dget d k' := by
  induction d with
  | nil => simp [dset, dget]
  | cons p rest ih =>
    by_cases hp : p.1 = k
    · simp only [dset, hp, if_pos rfl]
      by_cases hk : k = k'
      · simp [dget, hk]
      · simp [dget, hk, hp]
    · cases p with
    | mk p1 p2 =>
      simp only [dset, if_neg hp]
      by_cases hk : p1 = k'
      · subst hk
        have : ¬k = p1 := fun he => hp he.symm
        simp [dget, this]
      · simp [dget, hk, ih]

lemma dget_dupdate {v : Type} (us : List (String × v)) (k : String)
    (h : (dkeys us).Nodup) : ∀ d : List (String × v),
    dget (dupdate d us) k = oget (dget us k) (dget d k) := by
  induction us with
  | nil =>
    intro d
    simp [dupdate, dget, oget]
  | cons u rest ih =>
    intro d
    simp only [dkeys, List.map_cons, List.nodup_cons] at h
    have hrest := ih (by simpa [dkeys] using h.2)
    show dget (dupdate (dset d u.1 u.2) rest) k = _
    rw [hrest (dset d u.1 u.2)]
    by_cases hk : u.1 = k
    · subst hk
      have hnone : dget rest u.1 = none :=
        dget_eq_none_of_not_mem (by simpa [dkeys] using h.1)
      cases u with
      | mk u1 u2 => simp [dget, hnone, oget, dget_dset]
    · cases u with
    | mk u1 u2 =>
      simp only [dget, if_neg hk, dget_dset, if_neg hk]

lemma dget_map_values {v w : Type} (l : List (String × v)) (g : v → w)
    (k : String) :
    dget (l.map fun p => (p.1, g p.2)) k = (dget l k).map g := by
  induction l with
  | nil => rfl
  | cons p rest ih =>
    by_cases hp : p.1 = k
    · subst hp
      simp [dget, ih]
    · simp [dget, hp, ih]

/-- The value the listed query parameters contribute for a key: the value of
the matching query param, only when it is present and truthy. -/
def queryParamVal (filter_query_params getParams : List (String × String))
    (k : String) : Option FilterVal :=
  match dget filter_query_params k with
  | some qp =>
    match dget getParams qp with
    | some value => if truthyStr value then some (.str value) else none
    | none => none
  | none => none

lemma dget_queryParamFold (getParams : List (String × String)) (k : String) :
    ∀ (gp : List (String × String)), (dkeys gp).Nodup →
    ∀ d : List (String × FilterVal),
    dget (gp.foldl
      (fun acc p =>
        match dget getParams p.2 with
        | some value => if truthyStr value then dset acc p.1 (.str value) else acc
        | none => acc) d) k
      = oget (queryParamVal gp getParams k) (dget d k) := by
  intro gp
  induction gp with
  | nil =>
    intro _ d
    simp [queryParamVal, oget, dget]
  | cons p rest ih =>
    rcases p with ⟨p1, p2⟩
    intro h d
    simp only [dkeys, List.map_cons, List.nodup_cons] at h
    rw [List.foldl_cons, ih (by simpa [dkeys] using h.2)]
    by_cases hk : p1 = k
    · subst hk
      have hnone : dget rest p1 = none :=
        dget_eq_none_of_not_mem (by simpa [dkeys] using h.1)
      have hrest : queryParamVal rest getParams p1 = none := by
        simp only [queryParamVal, hnone]
      have hcons : queryParamVal ((p1, p2) :: rest) getParams p1
          = match dget getParams p2 with
            | some value => if truthyStr value then some (.str value) else none
            | none => none := by
        simp [queryParamVal, dget]
      rw [hrest, hcons]
      cases hg : dget getParams p2 with
      | none =>
        simp [hg, oget]
      | some value =>
        cases ht : truthyStr value with
        | false => simp [hg, ht, oget]
        | true => simp [hg, ht, oget, dget_dset]
    · have hq : queryParamVal ((p1, p2) :: rest) getParams k
          = queryParamVal rest getParams k := by
        simp only [queryParamVal, dget, if_neg hk]
      rw [hq]
      have hstep : dget
          (match dget getParams p2 with
           | some value => if truthyStr value then dset d p1 (.str value) else d
           | none => d) k = dget d k := by
        cases hg : dget getParams p2 with
        | none => rfl
        | some value =>
          cases ht : truthyStr value with
          | false => simp [ht]
          | true => simp [ht, dget_dset, if_neg hk, hk]
      rw [hstep]

lemma dkeys_map_values {v w : Type} (l : List (String × v)) (g : v → w) :
    dkeys (l.map fun p => (p.1, g p.2)) = dkeys l := by
  induction l with
  | nil => rfl
  | cons p rest ih =>
    simp only [dkeys, List.map_cons] at ih ⊢
    rw [ih]

/-- The value the claim assigns to each key of the composed queryset filter:
the extra filters take precedence, then a present-and-truthy query
parameter, then a URL-kwarg entry (Python `None` when the kwarg is absent),
then the requesting user under the (truthy) `user_key`. -/
def claimedFilterVal {γ : Type} (cfg : FilterViewConfig γ) (ctx : FilterViewCtx)
    (extra_filters : List (String × FilterVal)) (k : String) : Option FilterVal :=
  oget (dget extra_filters k)
    (oget (queryParamVal cfg.filter_query_params ctx.getParams k)
      (oget ((dget cfg.filter_kwargs k).map (kwargVal ctx.kwargs))
        (match cfg.user_key with
         | some userk => if userk = k ∧ userk ≠ "" then some (.user ctx.user) else none
         | none => none)))

/-- C6: `FilterQuerysetMixin.get_queryset` delegates to `get_list_or_error`
with the configured exception class and accept-empty flag on the model taken
from `serializer_class.Meta.model`, applied to the composed filter
dictionary; and the composed dictionary holds, at every key, the value
described by the claim (extra filters, else a present-and-truthy query
param, else a URL-kwarg entry — `None` when the kwarg is absent — else the
requesting user under `user_key`, reading `set` as Python-truthy).  The
configured dictionaries are duplicate-free, as Python dictionaries are. -/
theorem filter_queryset_spec {γ : Type} (cfg : FilterViewConfig γ)
    (ctx : FilterViewCtx) (extra_filters : List (String × FilterVal))
    (h1 : (dkeys cfg.filter_kwargs).Nodup)
    (h2 : (dkeys cfg.filter_query_params).Nodup)
    (h3 : (dkeys extra_filters).Nodup) (k : String) :
    FilterQuerysetMixin.get_queryset cfg ctx extra_filters
      = DjDrfUtils.get_list_or_error
          (cfg.serializer_class.metaModelFilter (queryset_filters cfg ctx extra_filters))
          cfg.exception_klass cfg.accept_empty ∧
    dget (queryset_filters cfg ctx extra_filters) k
      = claimedFilterVal cfg ctx extra_filters k := by
  refine ⟨rfl, ?_⟩
  unfold queryset_filters claimedFilterVal
  dsimp only
  rw [dget_dupdate extra_filters k h3]
  rw [dget_queryParamFold ctx.getParams k cfg.filter_query_params h2]
  rw [dget_dupdate _ k (by
    rw [dkeys_map_values cfg.filter_kwargs (kwargVal ctx.kwargs)]
    exact h1)]
  rw [dget_map_values cfg.filter_kwargs (kwargVal ctx.kwargs) k]
  congr 2
  cases cfg.user_key with
  | none => rfl
  | some userk =>
    by_cases he : userk = ""
    · subst he
      simp [dget]
    · by_cases hkk : userk = k
      · subst hkk
        simp [dget, he]
      · simp [dget, hkk, he]

/-- A concrete serializer class over natural-number model instances. -/
def sampleSerializer : SerializerClass Nat := ⟨fun _ => Except.ok [1]⟩

/-- A concrete `FilterQuerysetMixin` configuration. -/
def sampleFilterCfg : FilterViewConfig Nat :=
  { serializer_class := sampleSerializer
    user_key := some "owner"
    filter_kwargs := [("category", "category_id")]
    filter_query_params := [("value", "value_param")]
    exception_klass := .http404
    accept_empty := true }

/-- A concrete request context for `FilterQuerysetMixin`. -/
def sampleFilterCtx : FilterViewCtx :=
  { kwargs := [("category_id", "3")]
    getParams := [("value_param", "10")]
    user := { str := "alice", pk := 7 } }

/-- Closed witness for `filter_queryset_spec` at a concrete configuration. -/
theorem filter_queryset_spec_witness :
    (dkeys sampleFilterCfg.filter_kwargs).Nodup ∧
    (dkeys sampleFilterCfg.filter_query_params).Nodup ∧
    (dkeys ([] : List (String × FilterVal))).Nodup ∧
    (FilterQuerysetMixin.get_queryset sampleFilterCfg sampleFilterCtx []
      = DjDrfUtils.get_list_or_error
          (sampleFilterCfg.serializer_class.metaModelFilter
            (queryset_filters sampleFilterCfg sampleFilterCtx []))
          sampleFilterCfg.exception_klass sampleFilterCfg.accept_empty ∧
     dget (queryset_filters sampleFilterCfg sampleFilterCtx []) "value"
      = claimedFilterVal sampleFilterCfg sampleFilterCtx [] "value") :=
  ⟨by decide, by decide, by decide,
   filter_queryset_spec sampleFilterCfg sampleFilterCtx []
     (by decide) (by decide) (by decide) "value"⟩

lemma dget_isSome_of_mem {v : Type} {d : List (String × v)} {k : String}
    (h : k ∈ dkeys d) : (dget d k).isSome = true := by
  induction d with
  | nil => simp [dkeys] at h
  | cons p rest ih =>
    cases p with
    | mk p1 p2 =>
      by_cases hp : p1 = k
      · simp [dget, hp]
      · simp only [dkeys, List.map_cons, List.mem_cons] at h
        rcases h with h | h
        · exact absurd h.symm hp
        · simp only [dget, if_neg hp]
          exact ih h

lemma dget_eq_none_iff {v : Type} {d : List (String × v)} {k : String} :
    dget d k = none ↔ k ∉ dkeys d := by
  constructor
  · intro h hmem
    have := dget_isSome_of_mem hmem
    rw [h] at this
    simp at this
  · exact dget_eq_none_of_not_mem

lemma dget_append {v : Type} (a b : List (String × v)) (k : String) :
    dget (a ++ b) k = oget (dget a k) (dget b k) := by
  induction a with
  | nil => simp [dget, oget]
  | cons p rest ih =>
    cases p with
    | mk p1 p2 =>
      by_cases hp : p1 = k
      · simp [dget, hp, oget]
      · simp [dget, hp, ih]

lemma mem_dkeys_dremove {v : Type} {d : List (String × v)} {f k : String} :
    k ∈ dkeys (dremove d f) ↔ (k ∈ dkeys d ∧ k ≠ f) := by
  induction d with
  | nil => simp [dremove, dkeys]
  | cons p rest ih =>
    cases p with
    | mk p1 p2 =>
      simp only [dkeys] at ih ⊢
      by_cases hp : p1 = f
      · subst hp
        have hd : dremove ((p1, p2) :: rest) p1 = dremove rest p1 := by
          simp [dremove]
        rw [hd, ih]
        simp only [List.map_cons, List.mem_cons]
        constructor
        · rintro ⟨h1, h2⟩
          exact ⟨Or.inr h1, h2⟩
        · rintro ⟨h1 | h1, h2⟩
          · exact absurd h1 h2
          · exact ⟨h1, h2⟩
      · have hd : dremove ((p1, p2) :: rest) f = (p1, p2) :: dremove rest f := by
          simp [dremove, hp]
        rw [hd]
        simp only [List.map_cons, List.mem_cons]
        constructor
        · rintro (h | h)
          · subst h
            exact ⟨Or.inl rfl, hp⟩
          · have h2 := ih.mp h
            exact ⟨Or.inr h2.1, h2.2⟩
        · rintro ⟨h1 | h1, h2⟩
          · exact Or.inl h1
          · exact Or.inr (ih.mpr ⟨h1, h2⟩)

lemma dremove_sublist {v : Type} (d : List (String × v)) (f : String) :
    (dremove d f).Sublist d := by
  induction d with
  | nil => simp [dremove]
  | cons p rest ih =>
    cases p with
    | mk p1 p2 =>
      by_cases hp : p1 = f
      · simp only [dremove, if_pos hp]
        exact ih.cons _
      · simp only [dremove, if_neg hp]
        exact ih.cons₂ _

lemma nodup_dkeys_dremove {v : Type} {d : List (String × v)} {f : String}
    (h : (dkeys d).Nodup) : (dkeys (dremove d f)).Nodup :=
  (((dremove_sublist d f).map Prod.fst).nodup h)

/-- A required field passes the loop's checks: not forbidden, existing on
the user model, and present among the (remaining) inputs. -/
def goodField (cfg : ManagerConfig) (extra : List (String × String))
    (f : String) : Prop :=
  f ∉ forbiddenFields cfg ∧ f ∈ cfg.model_fields ∧ f ∈ dkeys extra

instance (cfg : ManagerConfig) (extra : List (String × String)) (f : String) :
    Decidable (goodField cfg extra f) := by
  unfold goodField
  infer_instance

lemma popRequired_error_validation (cfg : ManagerConfig) :
    ∀ (rest : List String) (extra acc : List (String × String)) (e : PyExc),
    popRequired cfg rest extra acc = .error e → ∃ msg, e = .validationError msg := by
  intro rest
  induction rest with
  | nil =>
    intro extra acc e h
    exact absurd h (by simp [popRequired])
  | cons f rs ih =>
    intro extra acc e h
    by_cases hf : f ∈ forbiddenFields cfg
    · rw [popRequired, if_pos hf] at h
      exact ⟨_, (Except.error.injEq _ _).mp h |>.symm⟩
    · by_cases hm : f ∈ cfg.model_fields
      · rw [popRequired, if_neg hf, if_neg (by simpa using hm)] at h
        cases hp : dpop extra f with
        | none =>
          rw [hp] at h
          exact ⟨_, (Except.error.injEq _ _).mp h |>.symm⟩
        | some p =>
          rw [hp] at h
          exact ih p.2 (acc ++ [(f, p.1)]) e h
      · rw [popRequired, if_neg hf, if_pos (by simpa using hm)] at h
        exact ⟨_, (Except.error.injEq _ _).mp h |>.symm⟩

lemma goodField_dremove (cfg : ManagerConfig) (extra : List (String × String))
    (g f : String) (hf : f ∈ forbiddenFields cfg ∨ g ≠ f) :
    goodField cfg (dremove extra f) g ↔ goodField cfg extra g := by
  unfold goodField
  rw [mem_dkeys_dremove]
  rcases hf with hf | hf
  · constructor
    · rintro ⟨h1, h2, h3, h4⟩
      exact ⟨h1, h2, h3⟩
    · rintro ⟨h1, h2, h3⟩
      refine ⟨h1, h2, h3, ?_⟩
      intro he
      subst he
      exact h1 hf
  · constructor
    · rintro ⟨h1, h2, h3, _⟩
      exact ⟨h1, h2, h3⟩
    · rintro ⟨h1, h2, h3⟩
      exact ⟨h1, h2, h3, hf⟩

lemma popRequired_isOk_iff (cfg : ManagerConfig) :
    ∀ (rest : List String) (extra acc : List (String × String)),
    rest.Nodup → (dkeys extra).Nodup →
    ((∃ res, popRequired cfg rest extra acc = .ok res) ↔
      ∀ f ∈ rest, goodField cfg extra f) := by
  intro rest
  induction rest with
  | nil =>
    intro extra acc _ _
    simp [popRequired]
  | cons f rs ih =>
    intro extra acc hnr hne
    rw [List.nodup_cons] at hnr
    by_cases hf : f ∈ forbiddenFields cfg
    · rw [popRequired, if_pos hf]
      simp only [List.mem_cons]
      constructor
      · rintro ⟨res, hres⟩
        exact absurd hres (by simp)
      · intro hall
        exact absurd hf (hall f (Or.inl rfl)).1
    · by_cases hm : f ∈ cfg.model_fields
      · rw [popRequired, if_neg hf, if_neg (by simpa using hm)]
        cases hp : dpop extra f with
        | none =>
          have hmem : f ∉ dkeys extra := by
            unfold dpop at hp
            cases hg : dget extra f with
            | none => exact dget_eq_none_iff.mp hg
            | some x => rw [hg] at hp; exact absurd hp (by simp)
          simp only [List.mem_cons]
          constructor
          · rintro ⟨res, hres⟩
            exact absurd hres (by simp)
          · intro hall
            exact absurd (hall f (Or.inl rfl)).2.2 hmem
        | some p =>
          have hget : dget extra f = some p.1 ∧ p.2 = dremove extra f := by
            unfold dpop at hp
            cases hg : dget extra f with
            | none => rw [hg] at hp; exact absurd hp (by simp)
            | some x =>
              rw [hg] at hp
              have h2 := (Option.some.injEq _ _).mp hp
              rw [← h2]
              exact ⟨rfl, rfl⟩
          have hfor : ∀ g ∈ rs, (goodField cfg p.2 g ↔ goodField cfg extra g) := by
            intro g hg
            rw [hget.2]
            exact goodField_dremove cfg extra g f
              (Or.inr fun he => hnr.1 (he ▸ hg))
          have hne2 : (dkeys p.2).Nodup := by
            rw [hget.2]
            exact nodup_dkeys_dremove hne
          rw [ih p.2 (acc ++ [(f, p.1)]) hnr.2 hne2]
          simp only [List.mem_cons]
          constructor
          · intro hall g hg
            rcases hg with hg | hg
            · subst hg
              exact ⟨hf, hm, dget_eq_none_iff.not_left.mp (by simp [hget.1])⟩
            · exact (hfor g hg).mp (hall g hg)
          · intro hall g hg
            exact (hfor g hg).mpr (hall g (Or.inr hg))
      · rw [popRequired, if_neg hf, if_pos (by simpa using hm)]
        simp only [List.mem_cons]
        constructor
        · rintro ⟨res, hres⟩
          exact absurd hres (by simp)
        · intro hall
          exact absurd (hall f (Or.inl rfl)).2.1 hm

lemma popRequired_ok_spec (cfg : ManagerConfig) :
    ∀ (rest : List String) (extra acc : List (String × String))
      (vals extraRest : List (String × String)),
    popRequired cfg rest extra acc = .ok (vals, extraRest) →
    (∃ tail, vals = acc ++ tail ∧ dkeys tail = rest) ∧
    (∀ k, k ∈ dkeys extraRest ↔ (k ∈ dkeys extra ∧ k ∉ rest)) := by
  intro rest
  induction rest with
  | nil =>
    intro extra acc vals extraRest h
    rw [popRequired] at h
    injection h with h1
    injection h1 with ha hb
    subst ha
    subst hb
    refine ⟨⟨[], by simp, rfl⟩, ?_⟩
    intro k
    simp
  | cons f rs ih =>
    intro extra acc vals extraRest h
    by_cases hf : f ∈ forbiddenFields cfg
    · rw [popRequired, if_pos hf] at h
      exact absurd h (by simp)
    · by_cases hm : f ∈ cfg.model_fields
      · rw [popRequired, if_neg hf, if_neg (by simpa using hm)] at h
        cases hp : dpop extra f with
        | none =>
          rw [hp] at h
          exact absurd h (by simp)
        | some p =>
          rw [hp] at h
          have hget : dget extra f = some p.1 ∧ p.2 = dremove extra f := by
            unfold dpop at hp
            cases hg : dget extra f with
            | none => rw [hg] at hp; exact absurd hp (by simp)
            | some x =>
              rw [hg] at hp
              have h2 := (Option.some.injEq _ _).mp hp
              rw [← h2]
              exact ⟨rfl, rfl⟩
          rcases ih p.2 (acc ++ [(f, p.1)]) vals extraRest h with ⟨⟨tail, ht1, ht2⟩, hrest⟩
          constructor
          · refine ⟨(f, p.1) :: tail, ?_, ?_⟩
            · rw [ht1, List.append_assoc]
              rfl
            · simp only [dkeys, List.map_cons] at ht2 ⊢
              rw [ht2]
          · intro k
            rw [hrest k, hget.2, mem_dkeys_dremove]
            simp only [List.mem_cons]
            constructor
            · rintro ⟨⟨h1, h2⟩, h3⟩
              exact ⟨h1, fun hc => hc.elim h2 h3⟩
            · rintro ⟨h1, h2⟩
              exact ⟨⟨h1, fun he => h2 (Or.inl he)⟩, fun hr => h2 (Or.inr hr)⟩
      · rw [popRequired, if_neg hf, if_pos (by simpa using hm)] at h
        exact absurd h (by simp)

lemma create_eval (cfg : ManagerConfig) (password : String)
    (extra_fields : List (String × String)) (authVal : String)
    (hauth : dget extra_fields cfg.auth_field_name = some authVal) :
    create cfg password extra_fields =
      match popRequired cfg cfg.required_fields
          (dremove extra_fields cfg.auth_field_name)
          [(cfg.auth_field_name, authVal.toLower)] with
      | .error e => .error e
      | .ok (required_values, extraRest) =>
        if "is_active" ∈ dkeys extraRest ++ dkeys required_values ∨
           "is_staff" ∈ dkeys extraRest ++ dkeys required_values then
          .error .typeError
        else
          .ok { fields := extraRest ++ required_values
                is_active := cfg.user_start_active
                is_staff := cfg.user_is_staff
                is_superuser := false
                password := password } := by
  unfold create dpop
  rw [hauth]

lemma create_missing_auth (cfg : ManagerConfig) (password : String)
    (extra_fields : List (String × String))
    (hauth : dget extra_fields cfg.auth_field_name = none) :
    create cfg password extra_fields
      = .error (.validationError ("Missing " ++ cfg.auth_field_name ++ " field")) := by
  unfold create dpop
  rw [hauth]

lemma auth_mem_forbidden (cfg : ManagerConfig) :
    cfg.auth_field_name ∈ forbiddenFields cfg := by
  simp [forbiddenFields]

/-- C7 (amended): `CustomUserManager.create` raises a `ValidationError`
exactly when the auth field is missing from the inputs or some entry of
`required_fields` is forbidden, absent from the user model, or missing from
the inputs (for duplicate-free `required_fields` and inputs, as Python
dictionaries give).  When no such failure occurs: if neither `is_active` nor
`is_staff` occurs among the inputs, it returns a saved user whose
`is_active` is `user_start_active`, whose `is_staff` is `user_is_staff`,
whose `is_superuser` is unset, whose password is the supplied one, and whose
auth field holds the supplied value lowercased; if one of them does occur,
the model-constructor call fails with a `TypeError` instead of saving. -/
theorem custom_user_manager_create_spec (cfg : ManagerConfig) (password : String)
    (extra_fields : List (String × String))
    (hnr : cfg.required_fields.Nodup)
    (hne : (dkeys extra_fields).Nodup) :
    ((∃ msg, create cfg password extra_fields = .error (.validationError msg)) ↔
      (cfg.auth_field_name ∉ dkeys extra_fields ∨
       ∃ f ∈ cfg.required_fields, f ∈ forbiddenFields cfg ∨ f ∉ cfg.model_fields ∨
         f ∉ dkeys extra_fields)) ∧
    (∀ authVal, dget extra_fields cfg.auth_field_name = some authVal →
      (∀ f ∈ cfg.required_fields, goodField cfg extra_fields f) →
      (("is_active" ∉ dkeys extra_fields ∧ "is_staff" ∉ dkeys extra_fields) →
        ∃ u, create cfg password extra_fields = .ok u ∧
          u.is_active = cfg.user_start_active ∧ u.is_staff = cfg.user_is_staff ∧
          u.is_superuser = false ∧ u.password = password ∧
          dget u.fields cfg.auth_field_name = some authVal.toLower) ∧
      (("is_active" ∈ dkeys extra_fields ∨ "is_staff" ∈ dkeys extra_fields) →
        create cfg password extra_fields = .error .typeError)) := by
  have hgoodiff : ∀ g, goodField cfg (dremove extra_fields cfg.auth_field_name) g
      ↔ goodField cfg extra_fields g := fun g =>
    goodField_dremove cfg extra_fields g cfg.auth_field_name
      (Or.inl (auth_mem_forbidden cfg))
  have hne2 : (dkeys (dremove extra_fields cfg.auth_field_name)).Nodup :=
    nodup_dkeys_dremove hne
  constructor
  · cases hg : dget extra_fields cfg.auth_field_name with
    | none =>
      rw [create_missing_auth cfg password extra_fields hg]
      constructor
      · intro _
        exact Or.inl (dget_eq_none_iff.mp hg)
      · intro _
        exact ⟨_, rfl⟩
    | some authVal =>
      have hmem : cfg.auth_field_name ∈ dkeys extra_fields := by
        by_contra hc
        rw [dget_eq_none_of_not_mem hc] at hg
        exact absurd hg (by simp)
      rw [create_eval cfg password extra_fields authVal hg]
      cases hpr : popRequired cfg cfg.required_fields
          (dremove extra_fields cfg.auth_field_name)
          [(cfg.auth_field_name, authVal.toLower)] with
      | error e =>
        rcases popRequired_error_validation cfg _ _ _ _ hpr with ⟨msg, hmsg⟩
        subst hmsg
        constructor
        · intro _
          right
          have hnotok : ¬∃ res, popRequired cfg cfg.required_fields
              (dremove extra_fields cfg.auth_field_name)
              [(cfg.auth_field_name, authVal.toLower)] = .ok res := by
            rintro ⟨res, hres⟩
            rw [hpr] at hres
            exact absurd hres (by simp)
          rw [popRequired_isOk_iff cfg cfg.required_fields _ _ hnr hne2] at hnotok
          push_neg at hnotok
          rcases hnotok with ⟨f, hfmem, hbad⟩
          refine ⟨f, hfmem, ?_⟩
          rw [hgoodiff f] at hbad
          unfold goodField at hbad
          tauto
        · intro _
          exact ⟨msg, rfl⟩
      | ok res =>
        obtain ⟨vals, extraRest⟩ := res
        dsimp only
        constructor
        · rintro ⟨msg, hmsg⟩
          split at hmsg <;> simp at hmsg
        · rintro (hmiss | ⟨f, hfmem, hbad⟩)
          · exact absurd hmem hmiss
          · have hok : ∃ r, popRequired cfg cfg.required_fields
                (dremove extra_fields cfg.auth_field_name)
                [(cfg.auth_field_name, authVal.toLower)] = .ok r :=
              ⟨(vals, extraRest), hpr⟩
            rw [popRequired_isOk_iff cfg cfg.required_fields _ _ hnr hne2] at hok
            have hgood := (hgoodiff f).mp (hok f hfmem)
            unfold goodField at hgood
            tauto
  · intro authVal hauth hreq
    have hmem : cfg.auth_field_name ∈ dkeys extra_fields := by
      by_contra hc
      rw [dget_eq_none_of_not_mem hc] at hauth
      exact absurd hauth (by simp)
    have hok : ∃ r, popRequired cfg cfg.required_fields
        (dremove extra_fields cfg.auth_field_name)
        [(cfg.auth_field_name, authVal.toLower)] = .ok r := by
      rw [popRequired_isOk_iff cfg cfg.required_fields _ _ hnr hne2]
      intro f hf
      exact (hgoodiff f).mpr (hreq f hf)
    rcases hok with ⟨⟨vals, extraRest⟩, hpr⟩
    rcases popRequired_ok_spec cfg _ _ _ _ _ hpr with ⟨⟨tail, htv, htk⟩, hrest⟩
    have hvalskeys : dkeys vals = cfg.auth_field_name :: cfg.required_fields := by
      rw [htv]
      show dkeys ([(cfg.auth_field_name, authVal.toLower)] ++ tail) = _
      unfold dkeys
      rw [List.map_append]
      unfold dkeys at htk
      rw [htk]
      rfl
    have hval_mem : ∀ k, k ∈ dkeys vals →
        (k = cfg.auth_field_name ∨ k ∈ cfg.required_fields) := by
      intro k hk
      rw [hvalskeys] at hk
      simpa using hk
    have hmem_extra : ∀ k, k ∈ dkeys extraRest ++ dkeys vals → k ∈ dkeys extra_fields := by
      intro k hk
      rw [List.mem_append] at hk
      rcases hk with hk | hk
      · exact (mem_dkeys_dremove.mp ((hrest k).mp hk).1).1
      · rcases hval_mem k hk with hk | hk
        · subst hk
          exact hmem
        · exact (hreq k hk).2.2
    constructor
    · rintro ⟨hna, hns⟩
      have hclash : ¬("is_active" ∈ dkeys extraRest ++ dkeys vals ∨
          "is_staff" ∈ dkeys extraRest ++ dkeys vals) := by
        rintro (hc | hc)
        · exact hna (hmem_extra _ hc)
        · exact hns (hmem_extra _ hc)
      refine ⟨{ fields := extraRest ++ vals, is_active := cfg.user_start_active,
                is_staff := cfg.user_is_staff, is_superuser := false,
                password := password }, ?_, rfl, rfl, rfl, rfl, ?_⟩
      · rw [create_eval cfg password extra_fields authVal hauth, hpr]
        dsimp only
        rw [if_neg hclash]
      · show dget (extraRest ++ vals) cfg.auth_field_name = some authVal.toLower
        rw [dget_append]
        have hnone : dget extraRest cfg.auth_field_name = none := by
          apply dget_eq_none_of_not_mem
          intro hc
          exact (mem_dkeys_dremove.mp ((hrest _).mp hc).1).2 rfl
        rw [hnone, htv]
        show oget none (dget ([(cfg.auth_field_name, authVal.toLower)] ++ tail)
          cfg.auth_field_name) = some authVal.toLower
        rw [dget_append]
        simp [dget, oget]
    · intro hyes
      have hforb_active : "is_active" ∈ forbiddenFields cfg := by
        simp [forbiddenFields]
      have hforb_staff : "is_staff" ∈ forbiddenFields cfg := by
        simp [forbiddenFields]
      have hclash : ("is_active" ∈ dkeys extraRest ++ dkeys vals ∨
          "is_staff" ∈ dkeys extraRest ++ dkeys vals) := by
        have hput : ∀ k, k ∈ forbiddenFields cfg → k ∈ dkeys extra_fields →
            k ∈ dkeys extraRest ++ dkeys vals := by
          intro k hkf hkm
          rw [List.mem_append]
          by_cases hka : k = cfg.auth_field_name
          · right
            rw [hvalskeys, hka]
            exact List.mem_cons_self _ _
          · left
            rw [hrest k, mem_dkeys_dremove]
            refine ⟨⟨hkm, hka⟩, ?_⟩
            intro hkr
            exact (hreq k hkr).1 hkf
        rcases hyes with hy | hy
        · exact Or.inl (hput _ hforb_active hy)
        · exact Or.inr (hput _ hforb_staff hy)
      rw [create_eval cfg password extra_fields authVal hauth, hpr]
      dsimp only
      rw [if_pos hclash]

/-- A concrete manager configuration requiring a first name. -/
def c7cfg : ManagerConfig :=
  { model_fields := ["email", "first_name", "is_active", "is_staff"]
    required_fields := ["first_name"] }

/-- Closed witness for `custom_user_manager_create_spec`: a well-formed call
returns a saved user with the documented flags and the lowercased auth
field. -/
theorem custom_user_manager_create_spec_witness :
    c7cfg.required_fields.Nodup ∧
    (dkeys [("email", "Alice@X"), ("first_name", "A")]).Nodup ∧
    dget [("email", "Alice@X"), ("first_name", "A")] c7cfg.auth_field_name
      = some "Alice@X" ∧
    (∀ f ∈ c7cfg.required_fields,
      goodField c7cfg [("email", "Alice@X"), ("first_name", "A")] f) ∧
    ("is_active" ∉ dkeys [("email", "Alice@X"), ("first_name", "A")] ∧
     "is_staff" ∉ dkeys [("email", "Alice@X"), ("first_name", "A")]) ∧
    (∃ u, create c7cfg "pw" [("email", "Alice@X"), ("first_name", "A")] = .ok u ∧
      u.is_active = c7cfg.user_start_active ∧ u.is_staff = c7cfg.user_is_staff ∧
      u.is_superuser = false ∧ u.password = "pw" ∧
      dget u.fields c7cfg.auth_field_name = some ("Alice@X".toLower)) :=
  ⟨by decide, by decide, by decide, by decide, by decide,
   ((custom_user_manager_create_spec c7cfg "pw"
       [("email", "Alice@X"), ("first_name", "A")] (by decide) (by decide)).2
     "Alice@X" (by decide) (by decide)).1 (by decide)⟩

/-- A concrete manager configuration with no required fields, over a model
having an `is_active` column. -/
def c7plainCfg : ManagerConfig :=
  { model_fields := ["email", "is_active", "name"] }

/-- C7 (counterexample): with the auth field present and no required-field
violation, passing `is_active` among the inputs makes
`CustomUserManager.create` raise a `TypeError` from the duplicated
constructor keyword instead of saving a user, refuting the claim's
`otherwise it saves and returns a user` clause. -/
theorem custom_user_manager_create_counterexample :
    c7plainCfg.required_fields = [] ∧
    "email" ∈ dkeys [("email", "Alice@X"), ("is_active", "1")] ∧
    create c7plainCfg "pw" [("email", "Alice@X"), ("is_active", "1")]
      = .error .typeError := ⟨rfl, by decide, rfl⟩
